import Mathlib

/-!
Shallow embedding of `src/model/model.py` (friendly_ground_truth).

Modelling conventions:
* A numpy 2-D float64 array is a row-major `List (List ℚ)`; rationals stand in
  for IEEE doubles (the dyadic inputs used in the concrete witnesses below are
  exact in both representations).
* Python exceptions become an `Except Err` result.  `Err` records which library
  exception is raised: `%`/`//` by zero raises `ZeroDivisionError`; `np.pad`,
  `skimage.util.view_as_blocks` and `skimage.filters.threshold_otsu` raise
  `ValueError`; numpy fancy indexing with an index outside `[-dim, dim)` raises
  `IndexError`.
* Python `%` and `//` on possibly negative integers are `Int.fmod` / `Int.fdiv`
  (floor-division semantics).
* Library calls (`threshold_otsu`, `skimage.exposure.histogram`, `np.cumsum`,
  `np.argmax`, `skimage.draw.circle`, `color.rgb2hsv` / `color.hsv2rgb`,
  `img_as_ubyte`) are embedded from their documented/source semantics at the
  version the repository targets (scikit-image 0.16, Feb 2020).
-/

set_option autoImplicit false

namespace FriendlyGT

/-- Row-major 2-D grid of intensities (numpy float64 array). -/
abbrev Grid := List (List ℚ)

/-- numpy `shape[1]`: the length of the first row (0 for an empty array). -/
def Grid.width (g : Grid) : ℕ := (g.headD []).length

/-- A `Grid` models a numpy array only when it is rectangular. -/
def Grid.Rect (g : Grid) : Prop := ∀ row ∈ g, row.length = g.width

instance (g : Grid) : Decidable g.Rect := by
  unfold Grid.Rect; infer_instance

/-- Pixel read with numpy defaulting (only used at in-bounds indices). -/
def getPix (g : Grid) (y x : ℕ) : ℚ := (g.getD y []).getD x 0

/-- The Python exceptions the modelled code can raise. -/
inductive Err where
  | zeroDivisionError
  | valueError
  | indexError
deriving DecidableEq, Repr

/-- np.cumsum over a 1-D array. -/
def cumsum (l : List ℚ) : List ℚ := (l.scanl (· + ·) 0).tail

/-- Tail of np.argmax: scan keeping the first index attaining the maximum. -/
def argmaxAux : List ℚ → ℕ → ℕ → ℚ → ℕ
  | [], _, bi, _ => bi
  | a :: rest, i, bi, bv =>
    if bv < a then argmaxAux rest (i + 1) i a else argmaxAux rest (i + 1) bi bv

/-- np.argmax: index of the first occurrence of the maximal element. -/
def argmax : List ℚ → ℕ
  | [] => 0
  | a :: rest => argmaxAux rest 1 0 a

/-- skimage.filters.threshold_otsu (0.16) on a float image: raises ValueError
when the image has a single distinct value; otherwise builds the 256-bin
histogram of `np.histogram(image, 256, range=(min, max))`, takes bin centers,
and returns the bin center maximizing the inter-class variance
`weight1[:-1] * weight2[1:] * (mean1[:-1] - mean2[1:])**2` (first maximum, as
np.argmax).  An empty image raises IndexError at `image.ravel()[0]`. -/
def threshold_otsu (image : Grid) : Except Err ℚ :=
  match image.flatten with
  | [] => .error .indexError
  | v0 :: rest =>
    if (v0 :: rest).all (fun v => v == v0) then .error .valueError
    else
      let vals := v0 :: rest
      let mn := rest.foldl min v0
      let mx := rest.foldl max v0
      let w := (mx - mn) / 256
      let binIdx : ℚ → ℕ := fun v => min 255 (Int.toNat ⌊(v - mn) / w⌋)
      let hist : List ℚ :=
        (List.range 256).map (fun k => ((vals.countP (fun v => binIdx v == k) : ℕ) : ℚ))
      let centers : List ℚ := (List.range 256).map (fun (k : ℕ) => mn + ((k : ℚ) + 1/2) * w)
      let weight1 := cumsum hist
      let weight2 := (cumsum hist.reverse).reverse
      let histc := List.zipWith (· * ·) hist centers
      let mean1 := List.zipWith (· / ·) (cumsum histc) weight1
      let mean2 := (List.zipWith (· / ·) (cumsum histc.reverse) weight2.reverse).reverse
      let variance12 :=
        List.zipWith (· * ·) (List.zipWith (· * ·) weight1.dropLast weight2.tail)
          (List.zipWith (fun a b => (a - b) ^ 2) mean1.dropLast mean2.tail)
      .ok (centers.getD (argmax variance12) 0)

/-- Patch state: the five instance attributes set by `Patch.__init__` and
mutated by the editing methods. -/
structure Patch where
  patch : Grid
  mask : List (List Bool)
  patch_index : ℤ × ℤ
  thresh : ℚ
  overlay_image : List (List (ℤ × ℤ × ℤ))
deriving DecidableEq, Repr

/-- Patch.apply_threshold: `binary = self.patch > value; self.mask = binary`
(elementwise strict comparison). -/
def apply_threshold (patch : Grid) (value : ℚ) : List (List Bool) :=
  patch.map (fun row => row.map (fun v => decide (value < v)))

/-- skimage color.rgb2hsv on one pixel: value is the channel maximum, the
saturation is `delta / v` with the `delta = 0` entries forced to 0, and hue is
the usual sector formula folded into `[0, 1)` by `(h0 / 6) % 1`, with the
`delta = 0` entries forced to 0. -/
def rgb2hsvPixel (p : ℚ × ℚ × ℚ) : ℚ × ℚ × ℚ :=
  let r := p.1
  let g := p.2.1
  let b := p.2.2
  let v := max r (max g b)
  let mn := min r (min g b)
  let delta := v - mn
  let s := if delta = 0 then 0 else delta / v
  let h0 :=
    if r = v then (g - b) / delta
    else if g = v then 2 + (b - r) / delta
    else 4 + (r - g) / delta
  let h := if delta = 0 then 0 else h0 / 6 - ⌊h0 / 6⌋
  (h, s, v)

/-- skimage color.hsv2rgb on one pixel: sector `hi = floor(h * 6) % 6` selects
an arrangement of `v`, `p = v(1-s)`, `q = v(1-fs)`, `t = v(1-(1-f)s)`. -/
def hsv2rgbPixel (c : ℚ × ℚ × ℚ) : ℚ × ℚ × ℚ :=
  let h := c.1
  let s := c.2.1
  let v := c.2.2
  let hi := ⌊h * 6⌋
  let f := h * 6 - hi
  let pp := v * (1 - s)
  let q := v * (1 - f * s)
  let t := v * (1 - (1 - f) * s)
  match hi.toNat % 6 with
  | 0 => (v, t, pp)
  | 1 => (q, v, pp)
  | 2 => (pp, v, t)
  | 3 => (pp, q, v)
  | 4 => (t, pp, v)
  | _ => (q, t, v)

/-- np.rint: round to the nearest integer, ties to even. -/
def rintQ (x : ℚ) : ℤ :=
  if x - ⌊x⌋ < 1/2 then ⌊x⌋
  else if 1/2 < x - ⌊x⌋ then ⌊x⌋ + 1
  else if ⌊x⌋ % 2 = 0 then ⌊x⌋ else ⌊x⌋ + 1

/-- skimage img_as_ubyte on one float channel value: scale by 255, np.rint,
clip into [0, 255].  (The library first rejects inputs outside [-1, 1]; the
intensity grids handled here lie in [0, 1], where no clipping occurs.) -/
def img_as_ubyte (x : ℚ) : ℤ := max 0 (min 255 (rintQ (255 * x)))

/-- One pixel of Patch.overlay_mask: the grayscale pixel replicated to RGB and
the red color-mask pixel are both converted to HSV; the image keeps its own
value channel but takes the color mask's hue and `alpha = 0.6` times the color
mask's saturation; the result is converted back to RGB and quantized to bytes. -/
def overlayPixel (v : ℚ) (m : Bool) : ℤ × ℤ × ℤ :=
  let alpha : ℚ := 3/5
  let colorMaskPixel : ℚ × ℚ × ℚ := (if m then 1 else 0, 0, 0)
  let imgHsv := rgb2hsvPixel (v, v, v)
  let cmHsv := rgb2hsvPixel colorMaskPixel
  let rgb := hsv2rgbPixel (cmHsv.1, cmHsv.2.1 * alpha, imgHsv.2.2)
  (img_as_ubyte rgb.1, img_as_ubyte rgb.2.1, img_as_ubyte rgb.2.2)

/-- Patch.overlay_mask: the numpy pipeline applied pointwise over the
(identically shaped) intensity grid and mask. -/
def overlay_mask (patch : Grid) (mask : List (List Bool)) : List (List (ℤ × ℤ × ℤ)) :=
  (patch.zip mask).map (fun rowPair =>
    (rowPair.1.zip rowPair.2).map (fun px => overlayPixel px.1 px.2))

/-- Patch.__init__: store the data and index, compute the Otsu threshold
(which can raise), threshold the data into the mask, and compute the overlay. -/
def Patch.init (patch : Grid) (patch_index : ℤ × ℤ) : Except Err Patch :=
  match threshold_otsu patch with
  | .error e => .error e
  | .ok thresh =>
    let mask := apply_threshold patch thresh
    .ok { patch := patch, mask := mask, patch_index := patch_index, thresh := thresh,
          overlay_image := overlay_mask patch mask }

/-- Patch.clear_mask: reset the mask to all-False zeros of the data's shape and
set the threshold to the sentinel 1.  The overlay is not recomputed. -/
def Patch.clear_mask (p : Patch) : Patch :=
  { p with mask := p.patch.map (fun row => row.map (fun _ => false)), thresh := 1 }

/-- skimage.draw.circle(r, c, radius) with no shape argument (0.16): integer
points of the bounding box `[ceil(r - radius), floor(r + radius)] x
[ceil(c - radius), floor(c + radius)]` whose normalized squared distance to the
center is strictly less than 1 (`_ellipse_in_shape` keeps `distances < 1`), in
row-major order.  Points exactly on the circle are excluded.  No clipping is
performed.  For `radius = 0` the distance expression is 0/0 (NaN), which
compares false, so the result is empty. -/
def circle (r c radius : ℚ) : List (ℤ × ℤ) :=
  if radius = 0 then []
  else
    (List.range (⌊r + radius⌋ - ⌈r - radius⌉ + 1).toNat).flatMap (fun (a : ℕ) =>
      (List.range (⌊c + radius⌋ - ⌈c - radius⌉ + 1).toNat).filterMap (fun (b : ℕ) =>
        let rr := ⌈r - radius⌉ + (a : ℤ)
        let cc := ⌈c - radius⌉ + (b : ℤ)
        if ((rr : ℚ) - r) ^ 2 + ((cc : ℚ) - c) ^ 2 < radius ^ 2 then some (rr, cc)
        else none))

/-- Functional model of the numpy fancy assignment `mask[rr, cc] = v` for a
list of (already wrapped, in-range) index pairs: every listed position takes
the value `v`, every other position keeps its old value. -/
def setIndices (mask : List (List Bool)) (idxs : List (ℤ × ℤ)) (v : Bool) :
    List (List Bool) :=
  (List.range mask.length).map (fun (i : ℕ) =>
    (List.range (mask.getD i []).length).map (fun (j : ℕ) =>
      if ((i : ℤ), (j : ℤ)) ∈ idxs then v else (mask.getD i []).getD j false))

/-- Patch.add_region: `rr, cc = circle(position[1], position[0], radius)` then
`self.mask[rr, cc] = 1` and a recomputation of the overlay.  Numpy indexing
semantics: if any index falls outside `[-dim, dim)` the assignment raises
IndexError; indices in `[-dim, -1]` wrap to the far side (`emod`). -/
def Patch.add_region (p : Patch) (position : ℤ × ℤ) (radius : ℚ) : Except Err Patch :=
  let coords := circle (position.2 : ℚ) (position.1 : ℚ) radius
  let H : ℤ := p.mask.length
  let W : ℤ := (p.mask.headD []).length
  if coords.all (fun rc =>
      decide (-H ≤ rc.1) && decide (rc.1 < H) && decide (-W ≤ rc.2) && decide (rc.2 < W)) then
    let wrapped := coords.map (fun rc => (rc.1.emod H, rc.2.emod W))
    let mask := setIndices p.mask wrapped true
    .ok { p with mask := mask, overlay_image := overlay_mask p.patch mask }
  else .error .indexError

/-- Patch.remove_region: as add_region but assigning 0 into the mask. -/
def Patch.remove_region (p : Patch) (position : ℤ × ℤ) (radius : ℚ) : Except Err Patch :=
  let coords := circle (position.2 : ℚ) (position.1 : ℚ) radius
  let H : ℤ := p.mask.length
  let W : ℤ := (p.mask.headD []).length
  if coords.all (fun rc =>
      decide (-H ≤ rc.1) && decide (rc.1 < H) && decide (-W ≤ rc.2) && decide (rc.2 < W)) then
    let wrapped := coords.map (fun rc => (rc.1.emod H, rc.2.emod W))
    let mask := setIndices p.mask wrapped false
    .ok { p with mask := mask, overlay_image := overlay_mask p.patch mask }
  else .error .indexError

/-- Padding amount for one dimension in Image.create_patches:
`(0, num_patches - dim % num_patches)` when `dim % num_patches` is nonzero,
`(0, 0)` otherwise; Python `%` is floor-mod (`Int.fmod`). -/
def padAmount (d n : ℤ) : ℤ := if d.fmod n ≠ 0 then n - d.fmod n else 0

/-- np.pad(image, ((0, a), (0, b)), constant 0): append `b` zero columns to
every row and `a` zero rows at the bottom (a fresh array; the input grid is
left untouched). -/
def npPad (g : Grid) (a b : ℕ) : Grid :=
  g.map (fun row => row ++ List.replicate b 0) ++
    List.replicate a (List.replicate (g.width + b) 0)

/-- Block (i, j) of view_as_blocks: rows `[i*bH, (i+1)*bH)` and columns
`[j*bW, (j+1)*bW)` of the padded grid. -/
def blockAt (g : Grid) (i j bH bW : ℕ) : Grid :=
  ((g.drop (i * bH)).take bH).map (fun row => (row.drop (j * bW)).take bW)

/-- The row-major index pairs produced by the nested loops
`for i in range(rows): for j in range(cols)`. -/
def pairs2 (rows cols : ℕ) : List (ℕ × ℕ) :=
  (List.range rows).flatMap (fun i => (List.range cols).map (fun j => (i, j)))

/-- The patch-construction loop of Image.create_patches: build a Patch from
each block in order, propagating the first construction failure. -/
def createLoop (padded : Grid) (bH bW : ℕ) : List (ℕ × ℕ) → Except Err (List Patch)
  | [] => .ok []
  | ij :: rest =>
    match Patch.init (blockAt padded ij.1 ij.2 bH bW) ((ij.1 : ℤ), (ij.2 : ℤ)) with
    | .error e => .error e
    | .ok p =>
      match createLoop padded bH bW rest with
      | .error e => .error e
      | .ok ps => .ok (p :: ps)

/-- Image.create_patches: pad so each dimension is a multiple of num_patches,
cut the padded grid into blocks of shape `(paddedH // n, paddedW // n)` with
view_as_blocks, and build one Patch per block in row-major order.
Failure modes of the underlying libraries: `% 0` raises ZeroDivisionError;
np.pad raises ValueError on negative pad widths; view_as_blocks raises
ValueError when a block dimension is not strictly positive or does not divide
the padded shape; Patch.init propagates threshold_otsu failures. -/
def Image.create_patches (image : Grid) (num_patches : ℤ) : Except Err (List Patch) :=
  if num_patches = 0 then .error .zeroDivisionError
  else
    let H : ℤ := image.length
    let W : ℤ := Grid.width image
    let pad_x := padAmount H num_patches
    let pad_y := padAmount W num_patches
    if pad_x < 0 ∨ pad_y < 0 then .error .valueError
    else
      let padded := npPad image pad_x.toNat pad_y.toNat
      let bH := (H + pad_x).fdiv num_patches
      let bW := (W + pad_y).fdiv num_patches
      if bH ≤ 0 ∨ bW ≤ 0 then .error .valueError
      else if (H + pad_x) % bH ≠ 0 ∨ (W + pad_y) % bW ≠ 0 then .error .valueError
      else createLoop padded bH.toNat bW.toNat (pairs2 num_patches.toNat num_patches.toNat)

/-- Verification helper (not from the source): the padding amount of
create_patches restated over ℕ, for the common case `n ≥ 1`. -/
def padNat (d n : ℕ) : ℕ := if d % n = 0 then 0 else n - d % n

/-- Verification helper: default Patch used only as the `getD` fallback in
statements about in-range indices. -/
def dummyPatch : Patch :=
  { patch := [], mask := [], patch_index := (0, 0), thresh := 0, overlay_image := [] }

/-- Concrete two-pixel grid used in the concrete evaluations below. -/
def d2 : Grid := [[0, 1]]

/-- The patch Patch.__init__ builds from `d2` with index (0, 0): the Otsu
threshold of a {0, 1}-valued grid is the first bin center `1/512`, the mask
holds exactly the 1-pixels, and the overlay tints them red. -/
def P2 : Patch :=
  { patch := [[0, 1]], mask := [[false, true]], patch_index := (0, 0),
    thresh := 1/512, overlay_image := [[(0, 0, 0), (255, 102, 102)]] }

/-- Concrete 3x3 grid with a single bright pixel at (0, 1). -/
def d3 : Grid := [[0, 1, 0], [0, 0, 0], [0, 0, 0]]

/-- The patch Patch.__init__ builds from `d3` with index (0, 0). -/
def P3 : Patch :=
  { patch := [[0, 1, 0], [0, 0, 0], [0, 0, 0]],
    mask := [[false, true, false], [false, false, false], [false, false, false]],
    patch_index := (0, 0), thresh := 1/512,
    overlay_image := [[(0, 0, 0), (255, 102, 102), (0, 0, 0)],
                      [(0, 0, 0), (0, 0, 0), (0, 0, 0)],
                      [(0, 0, 0), (0, 0, 0), (0, 0, 0)]] }

/-- The result of `P3.add_region (0, 0) 1`: the open disk of radius 1 around
pixel (0, 0) contains only the center itself (lattice points at distance
exactly 1 fail the strict `distances < 1` test), so only mask cell (0, 0) is
newly set. -/
def P3add : Patch :=
  { patch := [[0, 1, 0], [0, 0, 0], [0, 0, 0]],
    mask := [[true, true, false], [false, false, false], [false, false, false]],
    patch_index := (0, 0), thresh := 1/512,
    overlay_image := [[(0, 0, 0), (255, 102, 102), (0, 0, 0)],
                      [(0, 0, 0), (0, 0, 0), (0, 0, 0)],
                      [(0, 0, 0), (0, 0, 0), (0, 0, 0)]] }

/-- The result of `P3.add_region (0, 0) 2`: the open disk of radius 2 around
pixel (0, 0) is the 3x3 block of lattice points with both coordinates in
{-1, 0, 1}; the negative coordinates wrap (row/column -1 becomes 2), so every
cell of the 3x3 mask is set. -/
def P3add2 : Patch :=
  { patch := [[0, 1, 0], [0, 0, 0], [0, 0, 0]],
    mask := [[true, true, true], [true, true, true], [true, true, true]],
    patch_index := (0, 0), thresh := 1/512,
    overlay_image := [[(0, 0, 0), (255, 102, 102), (0, 0, 0)],
                      [(0, 0, 0), (0, 0, 0), (0, 0, 0)],
                      [(0, 0, 0), (0, 0, 0), (0, 0, 0)]] }

/-- The result of `P3add2.remove_region (1, 1) 1`: the open disk of radius 1
around pixel (1, 1) contains only (1, 1) itself, which is cleared. -/
def P3rem : Patch :=
  { patch := [[0, 1, 0], [0, 0, 0], [0, 0, 0]],
    mask := [[true, true, true], [true, false, true], [true, true, true]],
    patch_index := (0, 0), thresh := 1/512,
    overlay_image := [[(0, 0, 0), (255, 102, 102), (0, 0, 0)],
                      [(0, 0, 0), (0, 0, 0), (0, 0, 0)],
                      [(0, 0, 0), (0, 0, 0), (0, 0, 0)]] }

/-! ### List access helpers -/

theorem getD_map_range {α : Type} (f : ℕ → α) (n i : ℕ) (d : α) :
    (((List.range n).map f).getD i d) = if i < n then f i else d := by
  rcases lt_or_ge i n with h | h
  · rw [if_pos h, List.getD_eq_getElem?_getD,
      List.getElem?_eq_getElem (by simpa using h)]
    simp
  · rw [if_neg (not_lt.mpr h), List.getD_eq_getElem?_getD,
      List.getElem?_eq_none (by simpa using h)]
    rfl

theorem getD_out_of_range {α : Type} (l : List α) (i : ℕ) (d : α) (h : l.length ≤ i) :
    l.getD i d = d := by
  rw [List.getD_eq_getElem?_getD, List.getElem?_eq_none (by simpa using h)]
  rfl

theorem getD_eq_getElem {α : Type} (l : List α) (i : ℕ) (d : α) (h : i < l.length) :
    l.getD i d = l.get ⟨i, h⟩ := by
  rw [List.getD_eq_getElem?_getD, List.getElem?_eq_getElem h]
  rfl

theorem headD_eq_getD_zero {α : Type} (l : List α) (d : α) : l.headD d = l.getD 0 d := by
  cases l <;> rfl

/-! ### setIndices: shape preservation, pointwise value, idempotence -/

theorem setIndices_length (mask : List (List Bool)) (S : List (ℤ × ℤ)) (v : Bool) :
    (setIndices mask S v).length = mask.length := by
  simp [setIndices]

theorem setIndices_getD_length (mask : List (List Bool)) (S : List (ℤ × ℤ)) (v : Bool)
    (i : ℕ) : ((setIndices mask S v).getD i []).length = (mask.getD i []).length := by
  unfold setIndices
  rw [getD_map_range]
  split
  · simp
  · rename_i h
    rw [getD_out_of_range mask i [] (not_lt.mp h)]

theorem setIndices_getD (mask : List (List Bool)) (S : List (ℤ × ℤ)) (v : Bool)
    (i j : ℕ) (hi : i < mask.length) (hj : j < (mask.getD i []).length) :
    ((setIndices mask S v).getD i []).getD j false =
      if ((i : ℤ), (j : ℤ)) ∈ S then v else (mask.getD i []).getD j false := by
  unfold setIndices
  rw [getD_map_range, if_pos hi, getD_map_range, if_pos hj]

theorem setIndices_headD_length (mask : List (List Bool)) (S : List (ℤ × ℤ)) (v : Bool) :
    ((setIndices mask S v).headD []).length = (mask.headD []).length := by
  rw [headD_eq_getD_zero, headD_eq_getD_zero, setIndices_getD_length]

theorem setIndices_idem (mask : List (List Bool)) (S : List (ℤ × ℤ)) (v : Bool) :
    setIndices (setIndices mask S v) S v = setIndices mask S v := by
  unfold setIndices
  rw [List.length_map, List.length_range]
  apply List.ext_getElem
  · simp
  · intro i hi hi'
    simp only [List.getElem_map, List.getElem_range]
    have hi'' : i < mask.length := by simpa using hi
    rw [List.getD_eq_getElem?_getD,
      List.getElem?_eq_getElem (by simpa using hi'')]
    simp only [List.getElem_map, List.getElem_range, Option.getD_some, List.length_map,
      List.length_range]
    apply List.ext_getElem
    · simp
    · intro j hj hj'
      simp only [List.getElem_map, List.getElem_range]
      split
      · rfl
      · rw [List.getD_eq_getElem?_getD,
          List.getElem?_eq_getElem (by simpa using hj)]
        simp only [List.getElem_map, List.getElem_range, Option.getD_some]
        split
        · rename_i hmem hmem'
          exact absurd hmem' hmem
        · rfl

/-! ### C10: frame conditions of the editing operations -/

/-- C10: add_region, remove_region and clear_mask never modify the patch's
intensity data or its (row, col) index; add_region and remove_region leave the
stored threshold unchanged, and clear_mask leaves the stored overlay
unchanged. -/
theorem region_edit_frame (p p1 q1 : Patch) (pos pos' : ℤ × ℤ) (r r' : ℚ) :
    (Patch.add_region p pos r = .ok p1 →
      p1.patch = p.patch ∧ p1.patch_index = p.patch_index ∧ p1.thresh = p.thresh) ∧
    (Patch.remove_region p pos' r' = .ok q1 →
      q1.patch = p.patch ∧ q1.patch_index = p.patch_index ∧ q1.thresh = p.thresh) ∧
    ((Patch.clear_mask p).patch = p.patch ∧
      (Patch.clear_mask p).patch_index = p.patch_index ∧
      (Patch.clear_mask p).overlay_image = p.overlay_image) := by
  refine ⟨?_, ?_, rfl, rfl, rfl⟩
  · intro h
    unfold Patch.add_region at h
    dsimp only at h
    split at h
    · simp only [Except.ok.injEq] at h
      subst h
      exact ⟨rfl, rfl, rfl⟩
    · cases h
  · intro h
    unfold Patch.remove_region at h
    dsimp only at h
    split at h
    · simp only [Except.ok.injEq] at h
      subst h
      exact ⟨rfl, rfl, rfl⟩
    · cases h

/-! ### C2: overlay consistency -/

/-- C2 (amended): after Patch construction, add_region, or remove_region
returns, the stored overlay equals the overlay computed from the current data
and mask.  (clear_mask is excluded: the source does not recompute the overlay
there, see the counterexample.) -/
theorem overlay_consistent_after_edit (data : Grid) (idx : ℤ × ℤ)
    (p p1 q1 : Patch) (pos pos' : ℤ × ℤ) (r r' : ℚ) :
    (Patch.init data idx = .ok p → p.overlay_image = overlay_mask p.patch p.mask) ∧
    (Patch.add_region p pos r = .ok p1 →
      p1.overlay_image = overlay_mask p1.patch p1.mask) ∧
    (Patch.remove_region p pos' r' = .ok q1 →
      q1.overlay_image = overlay_mask q1.patch q1.mask) := by
  refine ⟨?_, ?_, ?_⟩
  · intro h
    unfold Patch.init at h
    cases hto : threshold_otsu data with
    | error e => rw [hto] at h; cases h
    | ok t =>
      rw [hto] at h
      simp only [Except.ok.injEq] at h
      subst h
      rfl
  · intro h
    unfold Patch.add_region at h
    dsimp only at h
    split at h
    · simp only [Except.ok.injEq] at h
      subst h
      rfl
    · cases h
  · intro h
    unfold Patch.remove_region at h
    dsimp only at h
    split at h
    · simp only [Except.ok.injEq] at h
      subst h
      rfl
    · cases h

/-! ### C9: idempotence of region edits -/

/-- C9: add_region is idempotent: a successful add_region followed by the same
call again returns the same patch (mask and overlay unchanged); likewise
remove_region. -/
theorem region_edit_idempotent (p p1 : Patch) (pos : ℤ × ℤ) (r : ℚ) :
    (Patch.add_region p pos r = .ok p1 → Patch.add_region p1 pos r = .ok p1) ∧
    (Patch.remove_region p pos r = .ok p1 → Patch.remove_region p1 pos r = .ok p1) := by
  constructor
  · intro h
    unfold Patch.add_region at h ⊢
    dsimp only at h ⊢
    split at h
    · rename_i hg
      simp only [Except.ok.injEq] at h
      subst h
      simp only [setIndices_length, setIndices_headD_length]
      rw [if_pos hg, setIndices_idem]
    · cases h
  · intro h
    unfold Patch.remove_region at h ⊢
    dsimp only at h ⊢
    split at h
    · rename_i hg
      simp only [Except.ok.injEq] at h
      subst h
      simp only [setIndices_length, setIndices_headD_length]
      rw [if_pos hg, setIndices_idem]
    · cases h

/-! ### C6: the initial mask thresholds the data -/

/-- C6: immediately after Patch construction, the mask is exactly the
elementwise comparison `data > thresh` against the stored threshold: pixel
(y, x) is true iff `data[y][x]` is strictly greater than the threshold. -/
theorem init_mask_eq_threshold (data : Grid) (idx : ℤ × ℤ) (p : Patch)
    (h : Patch.init data idx = .ok p) :
    p.mask = data.map (fun row => row.map (fun v => decide (p.thresh < v))) := by
  unfold Patch.init at h
  cases hto : threshold_otsu data with
  | error e => rw [hto] at h; cases h
  | ok t =>
    rw [hto] at h
    simp only [Except.ok.injEq] at h
    subst h
    rfl

/-! ### C5: degenerate input detection in Patch construction -/

/-- C5: Patch construction fails with the degenerate-input error (the
ValueError that threshold_otsu raises) exactly when the data has fewer than two
distinct intensity values; with two distinct values present, construction
succeeds and the stored threshold is the Otsu threshold of the data. -/
theorem init_degenerate_iff (data : Grid) (idx : ℤ × ℤ) (hne : data.flatten ≠ []) :
    ((∀ a ∈ data.flatten, ∀ b ∈ data.flatten, a = b) →
      Patch.init data idx = .error .valueError) ∧
    ((∃ a ∈ data.flatten, ∃ b ∈ data.flatten, a ≠ b) →
      ∃ q, Patch.init data idx = .ok q ∧ threshold_otsu data = .ok q.thresh) := by
  obtain ⟨v0, rest, hflat⟩ : ∃ v0 rest, data.flatten = v0 :: rest := by
    cases hf : data.flatten with
    | nil => exact absurd hf hne
    | cons a l => exact ⟨a, l, rfl⟩
  constructor
  · intro hall
    have hb : (v0 :: rest).all (fun v => v == v0) = true := by
      rw [List.all_eq_true]
      intro v hv
      exact beq_iff_eq.mpr
        (hall v (hflat ▸ hv) v0 (hflat ▸ List.mem_cons_self v0 rest))
    unfold Patch.init threshold_otsu
    rw [hflat]
    dsimp only
    rw [hb]
    rfl
  · rintro ⟨a, ha, b, hb, hab⟩
    have hball : (v0 :: rest).all (fun v => v == v0) = false := by
      rcases Bool.eq_false_or_eq_true ((v0 :: rest).all (fun v => v == v0)) with h | h
      · exfalso
        rw [List.all_eq_true] at h
        have hav : a = v0 := beq_iff_eq.mp (h a (hflat ▸ ha))
        have hbv : b = v0 := beq_iff_eq.mp (h b (hflat ▸ hb))
        exact hab (hav.trans hbv.symm)
      · exact h
    have hok : ∃ t, threshold_otsu data = .ok t := by
      unfold threshold_otsu
      rw [hflat]
      try dsimp only
      rw [hball]
      exact ⟨_, rfl⟩
    obtain ⟨t, ht⟩ := hok
    refine ⟨{ patch := data, mask := apply_threshold data t, patch_index := idx,
              thresh := t, overlay_image := overlay_mask data (apply_threshold data t) },
            ?_, ?_⟩
    · unfold Patch.init
      rw [ht]
    · exact ht

/-! ### C3: disk coordinates, wraparound and bounds of region edits -/

/-- Membership in the coordinate list of skimage.draw.circle, for a positive
radius: exactly the integer points whose squared distance to the center is
strictly below `radius^2` (the library's `distances < 1` test). -/
theorem circle_mem (r c radius : ℚ) (hr : 0 < radius) (rr cc : ℤ) :
    ((rr, cc) ∈ circle r c radius ↔
      ((rr : ℚ) - r) ^ 2 + ((cc : ℚ) - c) ^ 2 < radius ^ 2) := by
  unfold circle
  rw [if_neg (ne_of_gt hr)]
  simp only [List.mem_flatMap, List.mem_filterMap, List.mem_range]
  constructor
  · rintro ⟨a, ha, b, hb, hfb⟩
    try dsimp only at hfb
    split at hfb
    · rename_i hle
      rw [Option.some.injEq, Prod.mk.injEq] at hfb
      obtain ⟨h1, h2⟩ := hfb
      subst h1
      subst h2
      exact hle
    · cases hfb
  · intro hle
    have hsq1 : ((rr : ℚ) - r) ^ 2 ≤ radius ^ 2 := by
      nlinarith [sq_nonneg ((cc : ℚ) - c)]
    have hsq2 : ((cc : ℚ) - c) ^ 2 ≤ radius ^ 2 := by
      nlinarith [sq_nonneg ((rr : ℚ) - r)]
    have hrr1 : (rr : ℚ) ≤ r + radius := by
      nlinarith [sq_nonneg ((rr : ℚ) - r - radius)]
    have hrr2 : r - radius ≤ (rr : ℚ) := by
      nlinarith [sq_nonneg ((rr : ℚ) - r + radius)]
    have hcc1 : (cc : ℚ) ≤ c + radius := by
      nlinarith [sq_nonneg ((cc : ℚ) - c - radius)]
    have hcc2 : c - radius ≤ (cc : ℚ) := by
      nlinarith [sq_nonneg ((cc : ℚ) - c + radius)]
    have hA : ⌈r - radius⌉ ≤ rr := Int.ceil_le.mpr hrr2
    have hB : rr ≤ ⌊r + radius⌋ := Int.le_floor.mpr hrr1
    have hC : ⌈c - radius⌉ ≤ cc := Int.ceil_le.mpr hcc2
    have hD : cc ≤ ⌊c + radius⌋ := Int.le_floor.mpr hcc1
    refine ⟨(rr - ⌈r - radius⌉).toNat, by omega, (cc - ⌈c - radius⌉).toNat, by omega, ?_⟩
    dsimp only
    have hra : ⌈r - radius⌉ + ((rr - ⌈r - radius⌉).toNat : ℤ) = rr := by omega
    have hcb : ⌈c - radius⌉ + ((cc - ⌈c - radius⌉).toNat : ℤ) = cc := by omega
    rw [hra, hcb, if_pos hle]

/-- C3 (amended): the region-editing operations perform no bounds check on the
center.  For a positive radius, a call succeeds iff every integer point of the
open disk (squared distance strictly below `radius^2`, skimage's
`distances < 1`) lies within `[-H, H) x [-W, W)` (numpy's legal fancy-index
range for a mask of shape (H, W)); a failing call raises IndexError.  On
success, a mask cell (i, j) is set (for add_region) or cleared (for
remove_region) exactly when some open-disk point wraps to it by the numpy
modulo rule, so negative disk coordinates affect pixels at the far side of the
patch rather than being dropped. -/
theorem region_edit_wraps (p : Patch) (x y : ℤ) (radius : ℚ) (hr : 0 < radius) :
    ((∃ p1, Patch.add_region p (x, y) radius = .ok p1) ↔
      (∀ rr cc : ℤ, ((rr : ℚ) - (y : ℚ)) ^ 2 + ((cc : ℚ) - (x : ℚ)) ^ 2 < radius ^ 2 →
        -(p.mask.length : ℤ) ≤ rr ∧ rr < (p.mask.length : ℤ) ∧
          -((p.mask.headD []).length : ℤ) ≤ cc ∧ cc < ((p.mask.headD []).length : ℤ))) ∧
    (∀ p1, Patch.add_region p (x, y) radius = .ok p1 →
      ∀ i j : ℕ, i < p.mask.length → j < (p.mask.getD i []).length →
        ((p1.mask.getD i []).getD j false = true ↔
          ((p.mask.getD i []).getD j false = true ∨
            ∃ rr cc : ℤ, ((rr : ℚ) - (y : ℚ)) ^ 2 + ((cc : ℚ) - (x : ℚ)) ^ 2 < radius ^ 2 ∧
              rr.emod (p.mask.length : ℤ) = (i : ℤ) ∧
              cc.emod ((p.mask.headD []).length : ℤ) = (j : ℤ)))) ∧
    (∀ p1, Patch.remove_region p (x, y) radius = .ok p1 →
      ∀ i j : ℕ, i < p.mask.length → j < (p.mask.getD i []).length →
        ((p1.mask.getD i []).getD j false = true ↔
          ((p.mask.getD i []).getD j false = true ∧
            ¬ ∃ rr cc : ℤ, ((rr : ℚ) - (y : ℚ)) ^ 2 + ((cc : ℚ) - (x : ℚ)) ^ 2 < radius ^ 2 ∧
              rr.emod (p.mask.length : ℤ) = (i : ℤ) ∧
              cc.emod ((p.mask.headD []).length : ℤ) = (j : ℤ)))) := by
  have hmemw : ∀ i j : ℕ,
      (((i : ℤ), (j : ℤ)) ∈ (circle (y : ℚ) (x : ℚ) radius).map
          (fun rc => (rc.1.emod (p.mask.length : ℤ),
            rc.2.emod ((p.mask.headD []).length : ℤ))) ↔
        ∃ rr cc : ℤ, ((rr : ℚ) - (y : ℚ)) ^ 2 + ((cc : ℚ) - (x : ℚ)) ^ 2 < radius ^ 2 ∧
          rr.emod (p.mask.length : ℤ) = (i : ℤ) ∧
          cc.emod ((p.mask.headD []).length : ℤ) = (j : ℤ)) := by
    intro i j
    rw [List.mem_map]
    constructor
    · rintro ⟨⟨rr, cc⟩, hmem, heq⟩
      rw [Prod.mk.injEq] at heq
      exact ⟨rr, cc, (circle_mem _ _ _ hr rr cc).mp hmem, heq.1, heq.2⟩
    · rintro ⟨rr, cc, hle, h1, h2⟩
      exact ⟨(rr, cc), (circle_mem _ _ _ hr rr cc).mpr hle, by rw [Prod.mk.injEq]; exact ⟨h1, h2⟩⟩
  refine ⟨?_, ?_, ?_⟩
  · constructor
    · rintro ⟨p1, h⟩ rr cc hle
      unfold Patch.add_region at h
      dsimp only at h
      split at h
      · rename_i hg
        rw [List.all_eq_true] at hg
        have hmem := (circle_mem (y : ℚ) (x : ℚ) radius hr rr cc).mpr hle
        have := hg (rr, cc) hmem
        simp only [Bool.and_eq_true, decide_eq_true_eq] at this
        exact ⟨this.1.1.1, this.1.1.2, this.1.2, this.2⟩
      · cases h
    · intro hbound
      have hg : ((circle ((y : ℤ) : ℚ) ((x : ℤ) : ℚ) radius).all fun rc =>
          decide (-((p.mask.length : ℕ) : ℤ) ≤ rc.1) && decide (rc.1 < ((p.mask.length : ℕ) : ℤ)) &&
          decide (-(((p.mask.headD []).length : ℕ) : ℤ) ≤ rc.2) &&
          decide (rc.2 < (((p.mask.headD []).length : ℕ) : ℤ))) = true := by
        rw [List.all_eq_true]
        rintro ⟨rr, cc⟩ hmem
        have hle := (circle_mem (y : ℚ) (x : ℚ) radius hr rr cc).mp hmem
        obtain ⟨b1, b2, b3, b4⟩ := hbound rr cc hle
        simp only [Bool.and_eq_true, decide_eq_true_eq]
        exact ⟨⟨⟨b1, b2⟩, b3⟩, b4⟩
      exact ⟨_, by unfold Patch.add_region; dsimp only; rw [if_pos hg]⟩
  · intro p1 h i j hi hj
    unfold Patch.add_region at h
    dsimp only at h
    split at h
    · simp only [Except.ok.injEq] at h
      subst h
      show (setIndices _ _ _ |>.getD i []).getD j false = true ↔ _
      rw [setIndices_getD p.mask _ true i j hi hj]
      rw [← hmemw i j]
      split
      · simp only [true_iff]
        right
        assumption
      · rename_i hnm
        constructor
        · intro hold
          exact Or.inl hold
        · rintro (hold | hmem)
          · exact hold
          · exact absurd hmem hnm
    · cases h
  · intro p1 h i j hi hj
    unfold Patch.remove_region at h
    dsimp only at h
    split at h
    · simp only [Except.ok.injEq] at h
      subst h
      dsimp only
      rw [setIndices_getD p.mask _ false i j hi hj]
      rw [← hmemw i j]
      split
      · rename_i hm
        exact ⟨fun hc => (Bool.false_ne_true hc).elim, fun hh => absurd hm hh.2⟩
      · rename_i hnm
        exact ⟨fun hh => ⟨hh, hnm⟩, And.left⟩
    · cases h

/-! ### C7: overlay pipeline, shape and 8-bit range -/

theorem overlayPixel_eval (v : ℚ) (m : Bool) :
    overlayPixel v m =
      (img_as_ubyte v,
       img_as_ubyte (v * (1 - (if m then (3 : ℚ)/5 else 0))),
       img_as_ubyte (v * (1 - (if m then (3 : ℚ)/5 else 0)))) := by
  cases m <;>
    simp [overlayPixel, rgb2hsvPixel, hsv2rgbPixel, max_self, min_self]

theorem rintQ_bounds (x : ℚ) (h0 : 0 ≤ x) (h1 : x ≤ 255) :
    0 ≤ rintQ x ∧ rintQ x ≤ 255 := by
  have hf0 : 0 ≤ ⌊x⌋ := Int.floor_nonneg.mpr h0
  have hfle : ((⌊x⌋ : ℚ)) ≤ x := Int.floor_le x
  have hf255 : ⌊x⌋ ≤ 255 := by
    have : ((⌊x⌋ : ℚ)) ≤ 255 := le_trans hfle h1
    exact_mod_cast this
  unfold rintQ
  split
  · exact ⟨hf0, hf255⟩
  · rename_i hlt
    push_neg at hlt
    split
    · rename_i hgt
      have hlt255 : ⌊x⌋ < 255 := by
        have : ((⌊x⌋ : ℚ)) < 255 := by linarith
        exact_mod_cast this
      exact ⟨by omega, by omega⟩
    · split
      · exact ⟨hf0, hf255⟩
      · rename_i hngt _
        push_neg at hngt
        have heq : x - ⌊x⌋ = 1/2 := le_antisymm hngt hlt
        have hlt255 : ⌊x⌋ < 255 := by
          have : ((⌊x⌋ : ℚ)) < 255 := by linarith
          exact_mod_cast this
        exact ⟨by omega, by omega⟩

theorem img_as_ubyte_01 (x : ℚ) (h0 : 0 ≤ x) (h1 : x ≤ 1) :
    img_as_ubyte x = rintQ (255 * x) ∧ 0 ≤ img_as_ubyte x ∧ img_as_ubyte x ≤ 255 := by
  have hb := rintQ_bounds (255 * x) (by nlinarith) (by nlinarith)
  unfold img_as_ubyte
  rw [min_eq_right hb.2, max_eq_right hb.1]
  exact ⟨rfl, hb.1, hb.2⟩

theorem overlayPixel_bounds (v : ℚ) (m : Bool) (h0 : 0 ≤ v) (h1 : v ≤ 1) :
    0 ≤ (overlayPixel v m).1 ∧ (overlayPixel v m).1 ≤ 255 ∧
    0 ≤ (overlayPixel v m).2.1 ∧ (overlayPixel v m).2.1 ≤ 255 ∧
    0 ≤ (overlayPixel v m).2.2 ∧ (overlayPixel v m).2.2 ≤ 255 := by
  rw [overlayPixel_eval]
  have hs0 : 0 ≤ (if m then (3 : ℚ)/5 else 0) := by cases m <;> norm_num
  have hs1 : (if m then (3 : ℚ)/5 else 0) ≤ 1 := by cases m <;> norm_num
  have hv0 : 0 ≤ v * (1 - (if m then (3 : ℚ)/5 else 0)) := by nlinarith
  have hv1 : v * (1 - (if m then (3 : ℚ)/5 else 0)) ≤ 1 := by nlinarith
  have u1 := img_as_ubyte_01 v h0 h1
  have u2 := img_as_ubyte_01 _ hv0 hv1
  exact ⟨u1.2.1, u1.2.2, u2.2.1, u2.2.2, u2.2.1, u2.2.2⟩

theorem overlay_mask_getD (patch : Grid) (mask : List (List Bool)) (i : ℕ) :
    (overlay_mask patch mask).getD i [] =
      ((patch.getD i []).zip (mask.getD i [])).map (fun px => overlayPixel px.1 px.2) := by
  induction patch generalizing mask i with
  | nil => cases mask <;> cases i <;> rfl
  | cons row rows ih =>
    cases mask with
    | nil => cases i <;> simp [overlay_mask]
    | cons mrow mrows =>
      cases i with
      | zero => rfl
      | succ k => exact ih mrows k

theorem zip_map_overlay_getD (a : List ℚ) (b : List Bool) (j : ℕ)
    (hj : j < a.length) (hj' : j < b.length) :
    ((a.zip b).map (fun px => overlayPixel px.1 px.2)).getD j (0, 0, 0) =
      overlayPixel (a.getD j 0) (b.getD j false) := by
  induction a generalizing b j with
  | nil => cases hj
  | cons v vs ih =>
    cases b with
    | nil => cases hj'
    | cons m ms =>
      cases j with
      | zero => rfl
      | succ k => exact ih ms k (by simpa using hj) (by simpa using hj')

/-- C7: the overlay is computed per pixel by the HSV pipeline of
`overlayPixel` (grayscale-replicated RGB and red color mask to HSV; hue from
the color mask, saturation from the color mask scaled by the fixed
`alpha = 0.6`, value from the grayscale image; back to RGB; quantized by
img_as_ubyte); the result has the data's height and width with three channels
per pixel, and every channel value lies in [0, 255]. -/
theorem overlay_shape_range (patch : Grid) (mask : List (List Bool))
    (hlen : mask.length = patch.length)
    (hrow : ∀ i : ℕ, i < patch.length →
      (mask.getD i []).length = (patch.getD i []).length)
    (hval : ∀ row ∈ patch, ∀ v ∈ row, 0 ≤ v ∧ v ≤ 1) :
    (overlay_mask patch mask).length = patch.length ∧
    (∀ i : ℕ, i < patch.length →
      ((overlay_mask patch mask).getD i []).length = (patch.getD i []).length) ∧
    (∀ i j : ℕ, i < patch.length → j < (patch.getD i []).length →
      ((overlay_mask patch mask).getD i []).getD j (0, 0, 0) =
        overlayPixel ((patch.getD i []).getD j 0) ((mask.getD i []).getD j false)) ∧
    (∀ orow ∈ overlay_mask patch mask, ∀ t ∈ orow,
      0 ≤ t.1 ∧ t.1 ≤ 255 ∧ 0 ≤ t.2.1 ∧ t.2.1 ≤ 255 ∧ 0 ≤ t.2.2 ∧ t.2.2 ≤ 255) := by
  refine ⟨?_, ?_, ?_, ?_⟩
  · unfold overlay_mask
    rw [List.length_map, List.length_zip, hlen, Nat.min_self]
  · intro i hi
    rw [overlay_mask_getD, List.length_map, List.length_zip, hrow i hi, Nat.min_self]
  · intro i j hi hj
    rw [overlay_mask_getD, zip_map_overlay_getD _ _ _ hj (by rw [hrow i hi]; exact hj)]
  · intro orow horow t ht
    unfold overlay_mask at horow
    rw [List.mem_map] at horow
    obtain ⟨rowPair, hrp, horow⟩ := horow
    subst horow
    rw [List.mem_map] at ht
    obtain ⟨px, hpx, ht⟩ := ht
    subst ht
    have hrow1 : rowPair.1 ∈ patch := by
      cases rowPair with
      | mk rp rm => exact (List.of_mem_zip hrp).1
    have hpx1 : px.1 ∈ rowPair.1 := by
      cases px with
      | mk pv pm => exact (List.of_mem_zip hpx).1
    have hv := hval rowPair.1 hrow1 px.1 hpx1
    exact overlayPixel_bounds px.1 px.2 hv.1 hv.2

/-! ### Generic getD lemmas used by the padding and tiling proofs -/

theorem getD_append_left {α : Type} (l1 l2 : List α) (i : ℕ) (d : α) (h : i < l1.length) :
    (l1 ++ l2).getD i d = l1.getD i d := by
  induction l1 generalizing i with
  | nil => cases h
  | cons x xs ih =>
    cases i with
    | zero => rfl
    | succ k => exact ih k (by simpa using h)

theorem getD_append_right {α : Type} (l1 l2 : List α) (i : ℕ) (d : α)
    (h : l1.length ≤ i) : (l1 ++ l2).getD i d = l2.getD (i - l1.length) d := by
  induction l1 generalizing i with
  | nil => rfl
  | cons x xs ih =>
    cases i with
    | zero => cases h
    | succ k => simpa using ih k (by simpa using h)

theorem getD_replicate {α : Type} (n i : ℕ) (x d : α) (h : i < n) :
    (List.replicate n x).getD i d = x := by
  induction n generalizing i with
  | zero => cases h
  | succ m ih =>
    cases i with
    | zero => rfl
    | succ k => exact ih k (by omega)

theorem getD_map_in {α β : Type} (f : α → β) (l : List α) (i : ℕ) (d : β) (d' : α)
    (h : i < l.length) : (l.map f).getD i d = f (l.getD i d') := by
  induction l generalizing i with
  | nil => cases h
  | cons x xs ih =>
    cases i with
    | zero => rfl
    | succ k => exact ih k (by simpa using h)

theorem getD_take {α : Type} (l : List α) (t i : ℕ) (d : α) (hi : i < t) :
    (l.take t).getD i d = l.getD i d := by
  induction l generalizing t i with
  | nil => simp
  | cons x xs ih =>
    cases t with
    | zero => cases hi
    | succ m =>
      cases i with
      | zero => rfl
      | succ k => exact ih m k (by omega)

theorem getD_drop {α : Type} (l : List α) (s i : ℕ) (d : α) :
    (l.drop s).getD i d = l.getD (s + i) d := by
  induction l generalizing s with
  | nil => simp
  | cons x xs ih =>
    cases s with
    | zero => simp
    | succ m =>
      show (xs.drop m).getD i d = (x :: xs).getD (m + 1 + i) d
      rw [ih m]
      have he : m + 1 + i = (m + i) + 1 := by omega
      rw [he, List.getD_cons_succ]

/-! ### Padding: padNat facts and npPad pixel laws -/

theorem padNat_lt (d n : ℕ) (hn : 1 ≤ n) : padNat d n < n := by
  unfold padNat
  have hlt : d % n < n := Nat.mod_lt _ (by omega)
  split <;> omega

theorem padNat_mod (d n : ℕ) (hn : 1 ≤ n) : (d + padNat d n) % n = 0 := by
  have hdm := Nat.div_add_mod d n
  have hlt : d % n < n := Nat.mod_lt _ (by omega)
  unfold padNat
  split
  · rename_i h
    simpa [Nat.add_zero] using h
  · rename_i h
    have he : d + (n - d % n) = n * (d / n) + n := by omega
    rw [he]
    have he2 : n * (d / n) + n = n * (d / n + 1) := by ring
    rw [he2, Nat.mul_mod_right]

theorem padNat_ge (d n : ℕ) (hn : 1 ≤ n) (hd : 1 ≤ d) : n ≤ d + padNat d n := by
  have hmodle : d % n ≤ d := Nat.mod_le d n
  unfold padNat
  split
  · rename_i h
    have hdvd : n ∣ d := Nat.dvd_of_mod_eq_zero h
    have := Nat.le_of_dvd (by omega) hdvd
    omega
  · have hlt : d % n < n := Nat.mod_lt _ (by omega)
    omega

theorem padded_mul (d n : ℕ) (hn : 1 ≤ n) :
    n * ((d + padNat d n) / n) = d + padNat d n :=
  Nat.mul_div_cancel' (Nat.dvd_of_mod_eq_zero (padNat_mod d n hn))

theorem npPad_length (g : Grid) (a b : ℕ) : (npPad g a b).length = g.length + a := by
  simp [npPad]

theorem npPad_getD_left (g : Grid) (a b : ℕ) (y : ℕ) (hy : y < g.length) :
    (npPad g a b).getD y [] = g.getD y [] ++ List.replicate b 0 := by
  unfold npPad
  rw [getD_append_left _ _ _ _ (by simpa using hy), getD_map_in _ _ _ _ [] hy]

theorem npPad_getD_right (g : Grid) (a b : ℕ) (y : ℕ) (hy1 : g.length ≤ y)
    (hy2 : y < g.length + a) :
    (npPad g a b).getD y [] = List.replicate (g.width + b) 0 := by
  unfold npPad
  rw [getD_append_right _ _ _ _ (by simpa using hy1)]
  rw [List.length_map]
  exact getD_replicate _ _ _ _ (by omega)

theorem rect_row_length (g : Grid) (hr : g.Rect) (y : ℕ) (hy : y < g.length) :
    (g.getD y []).length = g.width := by
  rw [getD_eq_getElem _ _ _ hy]
  exact hr _ (List.get_mem g y hy)

theorem npPad_row_length (g : Grid) (hr : g.Rect) (a b y : ℕ) (hy : y < g.length + a) :
    ((npPad g a b).getD y []).length = g.width + b := by
  rcases lt_or_ge y g.length with h | h
  · rw [npPad_getD_left _ _ _ _ h, List.length_append, List.length_replicate,
      rect_row_length g hr y h]
  · rw [npPad_getD_right _ _ _ _ h hy, List.length_replicate]

theorem npPad_getPix_orig (g : Grid) (a b y x : ℕ) (hy : y < g.length)
    (hx : x < (g.getD y []).length) :
    getPix (npPad g a b) y x = getPix g y x := by
  unfold getPix
  rw [npPad_getD_left _ _ _ _ hy, getD_append_left _ _ _ _ hx]

theorem npPad_getPix_zero (g : Grid) (hr : g.Rect) (a b y x : ℕ)
    (hy : y < g.length + a) (hx : x < g.width + b)
    (hout : g.length ≤ y ∨ g.width ≤ x) :
    getPix (npPad g a b) y x = 0 := by
  unfold getPix
  rcases hout with h | h
  · rw [npPad_getD_right _ _ _ _ h hy]
    exact getD_replicate _ _ _ _ hx
  · rcases lt_or_ge y g.length with h2 | h2
    · rw [npPad_getD_left _ _ _ _ h2,
        getD_append_right _ _ _ _ (by rw [rect_row_length g hr y h2]; exact h)]
      exact getD_replicate _ _ _ _ (by rw [rect_row_length g hr y h2]; omega)
    · rw [npPad_getD_right _ _ _ _ h2 hy]
      exact getD_replicate _ _ _ _ hx

theorem padAmount_eq_padNat (d m : ℕ) (hm : 1 ≤ m) :
    padAmount (d : ℤ) (m : ℤ) = (padNat d m : ℤ) := by
  unfold padAmount padNat
  rw [Int.fmod_eq_emod _ (by omega)]
  have hcast : ((d : ℤ)) % ((m : ℤ)) = ((d % m : ℕ) : ℤ) := (Int.natCast_mod d m).symm
  rw [hcast]
  have hlt : d % m < m := Nat.mod_lt _ (by omega)
  by_cases h : d % m = 0
  · rw [if_neg (fun hne => hne (by exact_mod_cast h)), if_pos h]
    simp
  · rw [if_pos (Int.natCast_ne_zero.mpr h), if_neg h]
    omega

/-! ### C8: padding amounts and zero padding at the end -/

/-- C8: for a patch count `n >= 1` the tiler pads each dimension only at the
end, with zeros: the pad is 0 when the dimension is a multiple of n and
`n - dim % n` otherwise; all original pixels keep their coordinates and value,
all added pixels are 0, and for H = 23, n = 5 the padded height is 25.  The
embedding is pure: np.pad builds a fresh array, and `image` itself is never
changed. -/
theorem create_patches_padding (image : Grid) (n : ℕ) (hn : 1 ≤ n) (hr : image.Rect) :
    (padAmount (image.length : ℤ) (n : ℤ) = (padNat image.length n : ℤ) ∧
      padAmount (Grid.width image : ℤ) (n : ℤ) = (padNat (Grid.width image) n : ℤ)) ∧
    (image.length % n = 0 → padNat image.length n = 0) ∧
    (image.length % n ≠ 0 → padNat image.length n = n - image.length % n) ∧
    (Grid.width image % n = 0 → padNat (Grid.width image) n = 0) ∧
    (Grid.width image % n ≠ 0 →
      padNat (Grid.width image) n = n - Grid.width image % n) ∧
    (npPad image (padNat image.length n) (padNat (Grid.width image) n)).length
      = image.length + padNat image.length n ∧
    (∀ y : ℕ, y < image.length + padNat image.length n →
      ((npPad image (padNat image.length n) (padNat (Grid.width image) n)).getD y
        []).length = Grid.width image + padNat (Grid.width image) n) ∧
    (∀ y x : ℕ, y < image.length → x < Grid.width image →
      getPix (npPad image (padNat image.length n) (padNat (Grid.width image) n)) y x
        = getPix image y x) ∧
    (∀ y x : ℕ, y < image.length + padNat image.length n →
      x < Grid.width image + padNat (Grid.width image) n →
      image.length ≤ y ∨ Grid.width image ≤ x →
      getPix (npPad image (padNat image.length n) (padNat (Grid.width image) n)) y x
        = 0) ∧
    padNat 23 5 = 2 ∧ 23 + padNat 23 5 = 25 := by
  refine ⟨⟨padAmount_eq_padNat _ n hn, padAmount_eq_padNat _ n hn⟩,
    ?_, ?_, ?_, ?_, npPad_length _ _ _, ?_, ?_, ?_, by decide, by decide⟩
  · intro h
    unfold padNat
    rw [if_pos h]
  · intro h
    unfold padNat
    rw [if_neg h]
  · intro h
    unfold padNat
    rw [if_pos h]
  · intro h
    unfold padNat
    rw [if_neg h]
  · intro y hy
    exact npPad_row_length image hr _ _ y hy
  · intro y x hy hx
    exact npPad_getPix_orig image _ _ y x hy (by rw [rect_row_length image hr y hy]; exact hx)
  · intro y x hy hx hout
    exact npPad_getPix_zero image hr _ _ y x hy hx hout

/-! ### Blocks, the row-major index list, and the construction loop -/

theorem getD_range (c i : ℕ) (h : i < c) : (List.range c).getD i 0 = i := by
  induction c generalizing i with
  | zero => cases h
  | succ m ih =>
    rw [List.range_succ]
    rcases lt_or_ge i m with h2 | h2
    · rw [getD_append_left _ _ _ _ (by simpa using h2)]
      exact ih i h2
    · have hi : i = m := by omega
      subst hi
      rw [getD_append_right _ _ _ _ (by simp)]
      simp

theorem blockAt_length (g : Grid) (i j bH bW : ℕ) (h : (i + 1) * bH ≤ g.length) :
    (blockAt g i j bH bW).length = bH := by
  unfold blockAt
  rw [List.length_map, List.length_take, List.length_drop]
  have he : (i + 1) * bH = i * bH + bH := by ring
  omega

theorem blockAt_getD_row (g : Grid) (i j bH bW a : ℕ) (ha : a < bH)
    (h : (i + 1) * bH ≤ g.length) :
    (blockAt g i j bH bW).getD a [] =
      ((g.getD (i * bH + a) []).drop (j * bW)).take bW := by
  unfold blockAt
  have he : (i + 1) * bH = i * bH + bH := by ring
  rw [getD_map_in _ _ _ _ []
    (by rw [List.length_take, List.length_drop]; omega)]
  rw [getD_take _ _ _ _ ha, getD_drop]

theorem blockAt_row_length (g : Grid) (i j bH bW a : ℕ) (ha : a < bH)
    (h : (i + 1) * bH ≤ g.length) (hrow : (j + 1) * bW ≤ (g.getD (i * bH + a) []).length) :
    ((blockAt g i j bH bW).getD a []).length = bW := by
  rw [blockAt_getD_row g i j bH bW a ha h, List.length_take, List.length_drop]
  have he : (j + 1) * bW = j * bW + bW := by ring
  omega

theorem blockAt_getPix (g : Grid) (i j bH bW a b : ℕ) (ha : a < bH) (hb : b < bW)
    (h : (i + 1) * bH ≤ g.length) :
    getPix (blockAt g i j bH bW) a b = getPix g (i * bH + a) (j * bW + b) := by
  unfold getPix
  rw [blockAt_getD_row g i j bH bW a ha h, getD_take _ _ _ _ hb, getD_drop]

theorem pairs2_succ (r c : ℕ) :
    pairs2 (r + 1) c = pairs2 r c ++ (List.range c).map (fun j => (r, j)) := by
  unfold pairs2
  rw [List.range_succ, List.flatMap_append]
  simp

theorem pairs2_length (r c : ℕ) : (pairs2 r c).length = r * c := by
  induction r with
  | zero => simp [pairs2]
  | succ m ih =>
    rw [pairs2_succ, List.length_append, ih, List.length_map, List.length_range]
    ring

theorem pairs2_getD (r c k : ℕ) (hk : k < r * c) :
    (pairs2 r c).getD k (0, 0) = (k / c, k % c) := by
  induction r with
  | zero => simp at hk
  | succ m ih =>
    have hmc : (m + 1) * c = m * c + c := by ring
    rw [pairs2_succ]
    rcases lt_or_ge k (m * c) with h | h
    · rw [getD_append_left _ _ _ _ (by rw [pairs2_length]; exact h)]
      exact ih h
    · rw [getD_append_right _ _ _ _ (by rw [pairs2_length]; exact h), pairs2_length]
      rw [getD_map_in _ _ _ _ 0 (by rw [List.length_range]; omega)]
      rw [getD_range c (k - m * c) (by omega)]
      have h1 : k / c = m := Nat.div_eq_of_lt_le h hk
      have h2 : k % c = k - m * c := by
        have hmm : ((k - m * c) + m * c) % c = (k - m * c) % c :=
          Nat.add_mul_mod_self_right _ _ _
        rw [Nat.mod_eq_of_lt (by omega : k - m * c < c)] at hmm
        rw [← hmm]
        congr 1
        omega
      rw [h1, h2]

theorem createLoop_ok_spec (padded : Grid) (bH bW : ℕ) (l : List (ℕ × ℕ))
    (ps : List Patch) (h : createLoop padded bH bW l = .ok ps) :
    ps.length = l.length ∧
    ∀ k : ℕ, k < l.length →
      Patch.init (blockAt padded (l.getD k (0, 0)).1 (l.getD k (0, 0)).2 bH bW)
          (((l.getD k (0, 0)).1 : ℤ), ((l.getD k (0, 0)).2 : ℤ))
        = .ok (ps.getD k dummyPatch) := by
  induction l generalizing ps with
  | nil =>
    unfold createLoop at h
    simp only [Except.ok.injEq] at h
    subst h
    exact ⟨rfl, fun k hk => absurd hk (by simp)⟩
  | cons ij rest ih =>
    unfold createLoop at h
    cases h1 : Patch.init (blockAt padded ij.1 ij.2 bH bW) ((ij.1 : ℤ), (ij.2 : ℤ)) with
    | error e => rw [h1] at h; cases h
    | ok p =>
      rw [h1] at h
      cases h2 : createLoop padded bH bW rest with
      | error e => rw [h2] at h; cases h
      | ok ps' =>
        rw [h2] at h
        simp only [Except.ok.injEq] at h
        subst h
        obtain ⟨hlen, hget⟩ := ih ps' h2
        refine ⟨by simp [hlen], ?_⟩
        intro k hk
        cases k with
        | zero => simpa using h1
        | succ m => simpa using hget m (by simpa using hk)

theorem createLoop_isOk_iff (padded : Grid) (bH bW : ℕ) (l : List (ℕ × ℕ)) :
    (∃ ps, createLoop padded bH bW l = .ok ps) ↔
      ∀ ij ∈ l, ∃ p,
        Patch.init (blockAt padded ij.1 ij.2 bH bW) ((ij.1 : ℤ), (ij.2 : ℤ)) = .ok p := by
  induction l with
  | nil =>
    constructor
    · intro _ ij hij
      cases hij
    · intro _
      exact ⟨[], rfl⟩
  | cons ij rest ih =>
    constructor
    · rintro ⟨ps, h⟩
      unfold createLoop at h
      cases h1 : Patch.init (blockAt padded ij.1 ij.2 bH bW) ((ij.1 : ℤ), (ij.2 : ℤ)) with
      | error e => rw [h1] at h; cases h
      | ok p =>
        rw [h1] at h
        cases h2 : createLoop padded bH bW rest with
        | error e => rw [h2] at h; cases h
        | ok ps' =>
          intro ij' hij'
          rcases List.mem_cons.mp hij' with he | hm
          · subst he
            exact ⟨p, h1⟩
          · exact ih.mp ⟨ps', h2⟩ ij' hm
    · intro hall
      obtain ⟨p, hp⟩ := hall ij (List.mem_cons_self ij rest)
      obtain ⟨ps, hps⟩ := ih.mpr (fun ij' hij' => hall ij' (List.mem_cons_of_mem _ hij'))
      refine ⟨p :: ps, ?_⟩
      unfold createLoop
      rw [hp, hps]

theorem init_fields (data : Grid) (idx : ℤ × ℤ) (p : Patch)
    (h : Patch.init data idx = .ok p) : p.patch = data ∧ p.patch_index = idx := by
  unfold Patch.init at h
  cases hto : threshold_otsu data with
  | error e => rw [hto] at h; cases h
  | ok t =>
    rw [hto] at h
    simp only [Except.ok.injEq] at h
    subst h
    exact ⟨rfl, rfl⟩

/-- The success path of create_patches for `n >= 1` on a nonempty grid:
no guard fires, and the result is the patch-construction loop over the padded
grid with block shape `(paddedH / n, paddedW / n)`. -/
theorem create_patches_pos (image : Grid) (n : ℕ) (hn : 1 ≤ n)
    (hH : 1 ≤ image.length) (hW : 1 ≤ Grid.width image) :
    Image.create_patches image (n : ℤ) =
      createLoop (npPad image (padNat image.length n) (padNat (Grid.width image) n))
        ((image.length + padNat image.length n) / n)
        ((Grid.width image + padNat (Grid.width image) n) / n)
        (pairs2 n n) := by
  have hn0 : ((n : ℤ)) ≠ 0 := by exact_mod_cast (by omega : n ≠ 0)
  unfold Image.create_patches
  rw [if_neg hn0]
  dsimp only
  rw [padAmount_eq_padNat _ n hn, padAmount_eq_padNat _ n hn]
  rw [if_neg (by
    push_neg
    exact ⟨Int.natCast_nonneg _, Int.natCast_nonneg _⟩)]
  have hcastH : (image.length : ℤ) + (padNat image.length n : ℤ)
      = ((image.length + padNat image.length n : ℕ) : ℤ) := by push_cast; ring
  have hcastW : (Grid.width image : ℤ) + (padNat (Grid.width image) n : ℤ)
      = ((Grid.width image + padNat (Grid.width image) n : ℕ) : ℤ) := by push_cast; ring
  rw [hcastH, hcastW, ← Int.ofNat_fdiv, ← Int.ofNat_fdiv]
  have hbH : 1 ≤ (image.length + padNat image.length n) / n :=
    (Nat.one_le_div_iff (by omega)).mpr (padNat_ge _ n hn hH)
  have hbW : 1 ≤ (Grid.width image + padNat (Grid.width image) n) / n :=
    (Nat.one_le_div_iff (by omega)).mpr (padNat_ge _ n hn hW)
  rw [if_neg (by
    push_neg
    constructor
    · exact_mod_cast (by omega : 0 < (image.length + padNat image.length n) / n)
    · exact_mod_cast (by omega : 0 < (Grid.width image + padNat (Grid.width image) n) / n))]
  have hdvdH : ((image.length + padNat image.length n : ℕ) : ℤ) %
      (((image.length + padNat image.length n) / n : ℕ) : ℤ) = 0 := by
    rw [← Int.natCast_mod]
    norm_cast
    have hq := padded_mul image.length n hn
    generalize hqq : (image.length + padNat image.length n) / n = q at hq ⊢
    rw [← hq]
    exact Nat.mul_mod_left _ _
  have hdvdW : ((Grid.width image + padNat (Grid.width image) n : ℕ) : ℤ) %
      (((Grid.width image + padNat (Grid.width image) n) / n : ℕ) : ℤ) = 0 := by
    rw [← Int.natCast_mod]
    norm_cast
    have hq := padded_mul (Grid.width image) n hn
    generalize hqq : (Grid.width image + padNat (Grid.width image) n) / n = q at hq ⊢
    rw [← hq]
    exact Nat.mul_mod_left _ _
  rw [if_neg (by push_neg; exact ⟨by rw [hdvdH], by rw [hdvdW]⟩)]
  simp only [Int.toNat_natCast]

/-! ### C1: grid tiling geometry -/

/-- C1 (amended): for a rectangular grid with H, W at least 1 and patch count
n at least 1, whenever create_patches succeeds it returns exactly n * n
patches in row-major order: patch k carries block index (k / n, k % n), its
data is exactly the corresponding block of the zero-padded grid — rows
`[i*blockH, (i+1)*blockH)` and columns `[j*blockW, (j+1)*blockW)` with
`blockH = paddedH / n`, `blockW = paddedW / n` — all patches share that shape,
and every original pixel (y, x) appears, with its original value, at offset
(y % blockH, x % blockW) of the uniquely determined patch
(y / blockH) * n + (x / blockW).  (The unamended claim is false: construction
fails on grids with a constant block, see the counterexample.) -/
theorem create_patches_geometry (image : Grid) (n : ℕ) (hn : 1 ≤ n)
    (hr : image.Rect) (hH : 1 ≤ image.length) (hW : 1 ≤ Grid.width image)
    (ps : List Patch) (hok : Image.create_patches image (n : ℤ) = .ok ps) :
    ps.length = n * n ∧
    (∀ k : ℕ, k < n * n →
      (ps.getD k dummyPatch).patch_index = (((k / n : ℕ) : ℤ), ((k % n : ℕ) : ℤ)) ∧
      (ps.getD k dummyPatch).patch =
        blockAt (npPad image (padNat image.length n) (padNat (Grid.width image) n))
          (k / n) (k % n) ((image.length + padNat image.length n) / n)
          ((Grid.width image + padNat (Grid.width image) n) / n) ∧
      (ps.getD k dummyPatch).patch.length = (image.length + padNat image.length n) / n ∧
      (∀ aa : ℕ, aa < (image.length + padNat image.length n) / n →
        ((ps.getD k dummyPatch).patch.getD aa []).length =
          (Grid.width image + padNat (Grid.width image) n) / n) ∧
      (∀ aa bb : ℕ, aa < (image.length + padNat image.length n) / n →
        bb < (Grid.width image + padNat (Grid.width image) n) / n →
        getPix (ps.getD k dummyPatch).patch aa bb =
          getPix (npPad image (padNat image.length n) (padNat (Grid.width image) n))
            ((k / n) * ((image.length + padNat image.length n) / n) + aa)
            ((k % n) * ((Grid.width image + padNat (Grid.width image) n) / n) + bb))) ∧
    (∀ y x : ℕ, y < image.length → x < Grid.width image →
      getPix (ps.getD ((y / ((image.length + padNat image.length n) / n)) * n
            + x / ((Grid.width image + padNat (Grid.width image) n) / n)) dummyPatch).patch
          (y % ((image.length + padNat image.length n) / n))
          (x % ((Grid.width image + padNat (Grid.width image) n) / n))
        = getPix image y x) := by
  rw [create_patches_pos image n hn hH hW] at hok
  obtain ⟨hlen, hget⟩ := createLoop_ok_spec _ _ _ _ _ hok
  rw [pairs2_length] at hlen
  set H := image.length with hHdef
  set W := Grid.width image with hWdef
  set a := padNat H n with hadef
  set b := padNat W n with hbdef
  set bH := (H + a) / n with hbHdef
  set bW := (W + b) / n with hbWdef
  set padded := npPad image a b with hpaddeddef
  have hbH1 : 1 ≤ bH := (Nat.one_le_div_iff (by omega)).mpr (padNat_ge _ n hn hH)
  have hbW1 : 1 ≤ bW := (Nat.one_le_div_iff (by omega)).mpr (padNat_ge _ n hn hW)
  have hmulH : n * bH = H + a := padded_mul H n hn
  have hmulW : n * bW = W + b := padded_mul W n hn
  have hplen : padded.length = H + a := npPad_length image a b
  have hprow : ∀ y : ℕ, y < H + a → (padded.getD y []).length = W + b :=
    fun y hy => npPad_row_length image hr a b y hy
  have hk_info : ∀ k : ℕ, k < n * n →
      (ps.getD k dummyPatch).patch = blockAt padded (k / n) (k % n) bH bW ∧
      (ps.getD k dummyPatch).patch_index = (((k / n : ℕ) : ℤ), ((k % n : ℕ) : ℤ)) := by
    intro k hk
    have h1 := hget k (by rw [pairs2_length]; exact hk)
    rw [pairs2_getD n n k hk] at h1
    have h2 := init_fields _ _ _ h1
    exact ⟨h2.1, h2.2⟩
  have hblkle : ∀ k : ℕ, k < n * n → (k / n + 1) * bH ≤ padded.length := by
    intro k hk
    have hkdiv : k / n < n := (Nat.div_lt_iff_lt_mul (by omega)).mpr hk
    rw [hplen, ← hmulH]
    have := Nat.mul_le_mul_right bH (show k / n + 1 ≤ n by omega)
    have hcomm : n * bH = bH * n := by ring
    have hcomm2 : (k / n + 1) * bH = bH * (k / n + 1) := by ring
    omega
  refine ⟨hlen, ?_, ?_⟩
  · intro k hk
    obtain ⟨hpatch, hindex⟩ := hk_info k hk
    have hkmod : k % n < n := Nat.mod_lt _ (by omega)
    have hblk := hblkle k hk
    refine ⟨hindex, hpatch, ?_, ?_, ?_⟩
    · rw [hpatch]
      exact blockAt_length padded _ _ _ _ hblk
    · intro aa haa
      rw [hpatch]
      apply blockAt_row_length padded _ _ _ _ aa haa hblk
      rw [hprow ((k / n) * bH + aa) (by
        have he : (k / n + 1) * bH = (k / n) * bH + bH := by ring
        omega)]
      rw [← hmulW]
      have := Nat.mul_le_mul_right bW (show k % n + 1 ≤ n by omega)
      have hcomm : n * bW = bW * n := by ring
      have hcomm2 : (k % n + 1) * bW = bW * (k % n + 1) := by ring
      omega
    · intro aa bb haa hbb
      rw [hpatch]
      exact blockAt_getPix padded _ _ _ _ aa bb haa hbb hblk
  · intro y x hy hx
    have hynbH : y < n * bH := by omega
    have hxnbW : x < n * bW := by omega
    have hydiv : y / bH < n := (Nat.div_lt_iff_lt_mul (by omega)).mpr
      (by have : n * bH = bH * n := by ring
          omega)
    have hxdiv : x / bW < n := (Nat.div_lt_iff_lt_mul (by omega)).mpr
      (by have : n * bW = bW * n := by ring
          omega)
    have hkn : (y / bH) * n + x / bW < n * n := by
      have h2 : (y / bH) * n + n = (y / bH + 1) * n := by ring
      have h3 : (y / bH + 1) * n ≤ n * n :=
        Nat.mul_le_mul_right n (show y / bH + 1 ≤ n by omega)
      omega
    have hkd : (((y / bH) * n + x / bW) / n) = y / bH := by
      have hsplit : (y / bH) * n + x / bW = x / bW + n * (y / bH) := by ring
      rw [hsplit, Nat.add_mul_div_left _ _ (show 0 < n by omega),
        Nat.div_eq_of_lt hxdiv, Nat.zero_add]
    have hkm : (((y / bH) * n + x / bW) % n) = x / bW := by
      have hsplit : (y / bH) * n + x / bW = x / bW + n * (y / bH) := by ring
      rw [hsplit, Nat.add_mul_mod_self_left, Nat.mod_eq_of_lt hxdiv]
    obtain ⟨hpatch, _⟩ := hk_info ((y / bH) * n + x / bW) hkn
    rw [hpatch, hkd, hkm]
    rw [blockAt_getPix padded _ _ _ _ _ _ (Nat.mod_lt _ (by omega))
      (Nat.mod_lt _ (by omega)) (by
        have hb := hblkle _ hkn
        rw [hkd] at hb
        exact hb)]
    have hyy : (y / bH) * bH + y % bH = y := by
      have h1 := Nat.div_add_mod y bH
      have h2 : (y / bH) * bH = bH * (y / bH) := by ring
      omega
    have hxx : (x / bW) * bW + x % bW = x := by
      have h1 := Nat.div_add_mod x bW
      have h2 : (x / bW) * bW = bW * (x / bW) := by ring
      omega
    rw [hyy, hxx]
    exact npPad_getPix_orig image a b y x hy
      (by rw [rect_row_length image hr y hy]; exact hx)

/-! ### C4: failure conditions of create_patches -/

theorem padAmount_nonneg (d n : ℤ) (hn : 1 ≤ n) : 0 ≤ padAmount d n := by
  unfold padAmount
  have h1 : d.fmod n < n := Int.fmod_lt_of_pos d (by omega)
  split <;> omega

theorem padAmount_zero_left (n : ℤ) : padAmount 0 n = 0 := by
  unfold padAmount
  simp

theorem pairs2_mem (r c : ℕ) (ij : ℕ × ℕ) (h : ij ∈ pairs2 r c) :
    ij.1 < r ∧ ij.2 < c := by
  unfold pairs2 at h
  rw [List.mem_flatMap] at h
  obtain ⟨i, hi, hmem⟩ := h
  rw [List.mem_map] at hmem
  obtain ⟨j, hj, he⟩ := hmem
  rw [← he]
  exact ⟨List.mem_range.mp hi, List.mem_range.mp hj⟩

theorem blockAt_flatten_ne (g : Grid) (i j bH bW : ℕ) (hbH : 1 ≤ bH) (hbW : 1 ≤ bW)
    (h : (i + 1) * bH ≤ g.length) (hrow : (j + 1) * bW ≤ (g.getD (i * bH) []).length) :
    (blockAt g i j bH bW).flatten ≠ [] := by
  intro hflat
  rw [List.flatten_eq_nil_iff] at hflat
  have hlen : (blockAt g i j bH bW).length = bH := blockAt_length g i j bH bW h
  have hrow0 : ((blockAt g i j bH bW).getD 0 []).length = bW := by
    have := blockAt_row_length g i j bH bW 0 (by omega) h
      (by simpa [Nat.add_zero] using hrow)
    simpa using this
  have hmem : (blockAt g i j bH bW).getD 0 [] ∈ blockAt g i j bH bW := by
    rw [getD_eq_getElem _ _ _ (by omega)]
    exact List.get_mem _ 0 (by omega)
  have := hflat _ hmem
  rw [this] at hrow0
  simp at hrow0
  omega

/-- C4 (corrected): create_patches never raises an InvalidDimensionError (no
such check exists).  It fails with ZeroDivisionError for n = 0 (the `%` by
zero), with ValueError for n < 0 (np.pad or view_as_blocks reject the
computed amounts), and with ValueError when H = 0 or W = 0 (view_as_blocks
rejects a zero block side).  For n >= 1 on a nonempty rectangular grid it
succeeds if and only if every block of the padded grid has at least two
distinct intensity values — otherwise threshold_otsu raises, so the claim's
"for all other inputs it succeeds" is false (see the counterexample). -/
theorem create_patches_failure (image : Grid) (n : ℤ) (hr : image.Rect) :
    (n = 0 → Image.create_patches image n = .error .zeroDivisionError) ∧
    (n < 0 → Image.create_patches image n = .error .valueError) ∧
    (1 ≤ n → image.length = 0 ∨ Grid.width image = 0 →
      Image.create_patches image n = .error .valueError) ∧
    (∀ m : ℕ, 1 ≤ m → 1 ≤ image.length → 1 ≤ Grid.width image →
      ((∃ ps, Image.create_patches image (m : ℤ) = .ok ps) ↔
        ∀ ij ∈ pairs2 m m,
          ∃ v1 ∈ (blockAt (npPad image (padNat image.length m)
              (padNat (Grid.width image) m)) ij.1 ij.2
              ((image.length + padNat image.length m) / m)
              ((Grid.width image + padNat (Grid.width image) m) / m)).flatten,
          ∃ v2 ∈ (blockAt (npPad image (padNat image.length m)
              (padNat (Grid.width image) m)) ij.1 ij.2
              ((image.length + padNat image.length m) / m)
              ((Grid.width image + padNat (Grid.width image) m) / m)).flatten,
            v1 ≠ v2)) := by
  refine ⟨?_, ?_, ?_, ?_⟩
  · intro h
    subst h
    unfold Image.create_patches
    rw [if_pos rfl]
  · intro hneg
    unfold Image.create_patches
    rw [if_neg (by omega)]
    try dsimp only
    by_cases hpad : padAmount (image.length : ℤ) n < 0 ∨
        padAmount (Grid.width image : ℤ) n < 0
    · rw [if_pos hpad]
    · rw [if_neg hpad]
      try dsimp only
      push_neg at hpad
      have hb : ((image.length : ℤ) + padAmount (image.length : ℤ) n).fdiv n ≤ 0 :=
        Int.fdiv_nonpos (by have := Int.natCast_nonneg image.length; omega) (by omega)
      rw [if_pos (Or.inl hb)]
  · intro hpos hzero
    unfold Image.create_patches
    rw [if_neg (by omega)]
    try dsimp only
    rw [if_neg (by
      push_neg
      exact ⟨padAmount_nonneg _ n hpos, padAmount_nonneg _ n hpos⟩)]
    try dsimp only
    rcases hzero with h | h
    · have hc : ((image.length : ℕ) : ℤ) = 0 := by rw [h]; rfl
      rw [if_pos (Or.inl (by
        rw [hc, padAmount_zero_left]
        norm_num))]
    · have hc : ((Grid.width image : ℕ) : ℤ) = 0 := by rw [h]; rfl
      rw [if_pos (Or.inr (by
        rw [hc, padAmount_zero_left]
        norm_num))]
  · intro m hm hH hW
    rw [create_patches_pos image m hm hH hW]
    rw [createLoop_isOk_iff]
    have hbH1 : 1 ≤ (image.length + padNat image.length m) / m :=
      (Nat.one_le_div_iff (by omega)).mpr (padNat_ge _ m hm hH)
    have hbW1 : 1 ≤ (Grid.width image + padNat (Grid.width image) m) / m :=
      (Nat.one_le_div_iff (by omega)).mpr (padNat_ge _ m hm hW)
    have hmulH : m * ((image.length + padNat image.length m) / m)
        = image.length + padNat image.length m := padded_mul image.length m hm
    have hmulW : m * ((Grid.width image + padNat (Grid.width image) m) / m)
        = Grid.width image + padNat (Grid.width image) m := padded_mul _ m hm
    have hne : ∀ ij ∈ pairs2 m m,
        (blockAt (npPad image (padNat image.length m) (padNat (Grid.width image) m))
          ij.1 ij.2 ((image.length + padNat image.length m) / m)
          ((Grid.width image + padNat (Grid.width image) m) / m)).flatten ≠ [] := by
      intro ij hij
      obtain ⟨hij1, hij2⟩ := pairs2_mem m m ij hij
      set bH := (image.length + padNat image.length m) / m with hbHd
      set bW := (Grid.width image + padNat (Grid.width image) m) / m with hbWd
      have hfullH : (ij.1 + 1) * bH ≤ image.length + padNat image.length m := by
        rw [← hmulH]
        exact Nat.mul_le_mul_right bH (by omega)
      have hfullW : (ij.2 + 1) * bW ≤ Grid.width image + padNat (Grid.width image) m := by
        rw [← hmulW]
        exact Nat.mul_le_mul_right bW (by omega)
      apply blockAt_flatten_ne _ _ _ _ _ hbH1 hbW1
      · rw [npPad_length]
        exact hfullH
      · rw [npPad_row_length image hr _ _ _ (by
          have he : (ij.1 + 1) * bH = ij.1 * bH + bH := by ring
          omega)]
        exact hfullW
    constructor
    · intro hall ij hij
      obtain ⟨p, hp⟩ := hall ij hij
      by_contra hnd
      push_neg at hnd
      have herr := (init_degenerate_iff _ ((ij.1 : ℤ), (ij.2 : ℤ)) (hne ij hij)).1
        (fun a ha bb hbb => hnd a ha bb hbb)
      rw [herr] at hp
      cases hp
    · intro hall ij hij
      obtain ⟨p, hp, _⟩ := (init_degenerate_iff _ ((ij.1 : ℤ), (ij.2 : ℤ))
        (hne ij hij)).2 (hall ij hij)
      exact ⟨p, hp⟩

/-! ### Concrete evaluations: counterexamples and witnesses

The core Rat arithmetic is sealed for the elaborator; within this section it
is made semireducible so concrete runs of the embedded code reduce by rfl. -/

section ConcreteEvaluations

set_option allowUnsafeReducibility true
attribute [local semireducible] Rat.add Rat.mul Rat.div Rat.sub Rat.neg Rat.inv
  Rat.floor Rat.ceil
set_option maxRecDepth 100000

/-- C1 counterexample: the 1x1 grid [[0]] with n = 1 satisfies H, W, n >= 1,
yet create_patches does not return n^2 = 1 patches: the single block is
constant, threshold_otsu raises ValueError, and the call fails. -/
theorem create_patches_geometry_counterexample :
    Image.create_patches [[0]] 1 = .error .valueError ∧
    ¬∃ ps : List Patch, Image.create_patches [[0]] 1 = .ok ps ∧ ps.length = 1 := by
  have h : Image.create_patches [[0]] 1 = .error .valueError := by rfl
  refine ⟨h, ?_⟩
  rintro ⟨ps, hps, _⟩
  rw [h] at hps
  cases hps

/-- C1 witness: the geometry theorem applied to the 1x2 grid [[0, 1]] with
n = 1, whose single patch is P2. -/
theorem create_patches_geometry_witness : ([P2] : List Patch).length = 1 * 1 :=
  (create_patches_geometry d2 1 (by norm_num) (by decide) (by decide) (by decide)
    [P2] (by rfl)).1

/-- C2 counterexample: clear_mask does not recompute the overlay.  After
`P2.clear_mask` the stored overlay still tints pixel (0, 1) red although the
mask is now all false. -/
theorem overlay_consistent_counterexample :
    Patch.init d2 (0, 0) = .ok P2 ∧
    P2.clear_mask.overlay_image ≠
      overlay_mask P2.clear_mask.patch P2.clear_mask.mask := by
  refine ⟨by rfl, ?_⟩
  intro h
  have h2 : P2.clear_mask.overlay_image = [[(0, 0, 0), (255, 102, 102)]] := by rfl
  have h3 : overlay_mask P2.clear_mask.patch P2.clear_mask.mask
      = [[(0, 0, 0), (255, 255, 255)]] := by rfl
  rw [h2, h3] at h
  cases h

/-- C2 witness: overlay consistency after construction (P2) and after a
successful add_region (P3 to P3add). -/
theorem overlay_consistent_witness :
    P2.overlay_image = overlay_mask P2.patch P2.mask ∧
    P3add.overlay_image = overlay_mask P3add.patch P3add.mask := by
  constructor
  · exact (overlay_consistent_after_edit d2 (0, 0) P2 P2 P2 (0, 0) (0, 0) 1 1).1 (by rfl)
  · exact (overlay_consistent_after_edit d3 (0, 0) P3 P3add P3add (0, 0) (0, 0) 1 1).2.1
      (by rfl)

/-- C3 counterexample: on the 3x3 patch P3, add_region at in-bounds center
(0, 0) with radius 2 does not drop the out-of-bounds disk pixels: mask cell
(2, 0) — not an open-disk member — flips to true because disk pixel (-1, 0)
wraps; and a far out-of-bounds center (9, 9) with radius 0 succeeds instead of
raising an out-of-bounds error. -/
theorem region_edit_wraps_counterexample :
    Patch.init d3 (0, 0) = .ok P3 ∧
    P3.add_region (0, 0) 2 = .ok P3add2 ∧
    (P3.mask.getD 2 []).getD 0 false = false ∧
    (P3add2.mask.getD 2 []).getD 0 false = true ∧
    ¬(((2 : ℚ) - 0) ^ 2 + ((0 : ℚ) - 0) ^ 2 < 2 ^ 2) ∧
    P3.add_region (9, 9) 0 = .ok P3 := by
  refine ⟨by rfl, by rfl, by rfl, by rfl, by norm_num, by rfl⟩

/-- C3 witness: the wraparound characterization applied to P3 at center
(0, 0), radius 2, read at mask cell (2, 0). -/
theorem region_edit_wraps_witness :
    (P3add2.mask.getD 2 []).getD 0 false = true ↔
      ((P3.mask.getD 2 []).getD 0 false = true ∨
        ∃ rr cc : ℤ,
          ((rr : ℚ) - ((0 : ℤ) : ℚ)) ^ 2 + ((cc : ℚ) - ((0 : ℤ) : ℚ)) ^ 2 < 2 ^ 2 ∧
          rr.emod (P3.mask.length : ℤ) = ((2 : ℕ) : ℤ) ∧
          cc.emod ((P3.mask.headD []).length : ℤ) = ((0 : ℕ) : ℤ)) :=
  (region_edit_wraps P3 0 0 2 (by norm_num)).2.1 P3add2 (by rfl) 2 0 (by decide) (by decide)

/-- C4 counterexample: [[1]] with n = 1 has H, W >= 1 and n >= 1, yet
create_patches fails (with ValueError, not an InvalidDimensionError), refuting
that it succeeds on all such inputs. -/
theorem create_patches_failure_counterexample :
    Image.create_patches [[1]] 1 = .error .valueError ∧
    ¬∃ ps : List Patch, Image.create_patches [[1]] 1 = .ok ps := by
  have h : Image.create_patches [[1]] 1 = .error .valueError := by rfl
  refine ⟨h, ?_⟩
  rintro ⟨ps, hps⟩
  rw [h] at hps
  cases hps

/-- C4 witness: the failure characterization applied at n = 0, n = -3, a
zero-width grid, and the succeeding two-valued grid [[0, 1]] with n = 1. -/
theorem create_patches_failure_witness :
    Image.create_patches d2 0 = .error .zeroDivisionError ∧
    Image.create_patches d2 (-3) = .error .valueError ∧
    Image.create_patches ([[], []] : Grid) 2 = .error .valueError ∧
    (∃ ps, Image.create_patches d2 ((1 : ℕ) : ℤ) = .ok ps) := by
  refine ⟨(create_patches_failure d2 0 (by decide)).1 rfl,
    (create_patches_failure d2 (-3) (by decide)).2.1 (by norm_num),
    (create_patches_failure [[], []] 2 (by decide)).2.2.1 (by norm_num) (Or.inr rfl),
    ((create_patches_failure d2 0 (by decide)).2.2.2 1 (by norm_num) (by decide)
      (by decide)).mpr (by decide)⟩

/-- C5 witness: Patch construction fails on the constant grid [[0, 0]] and
succeeds on the two-valued grid [[0, 1]], storing the Otsu threshold. -/
theorem init_degenerate_iff_witness :
    Patch.init [[0, 0]] (0, 0) = .error .valueError ∧
    ∃ q, Patch.init d2 (0, 0) = .ok q ∧ threshold_otsu d2 = .ok q.thresh := by
  refine ⟨(init_degenerate_iff [[0, 0]] (0, 0) (by decide)).1 (by decide), ?_⟩
  exact (init_degenerate_iff d2 (0, 0) (by decide)).2 ⟨0, by decide, 1, by decide, by norm_num⟩

/-- C6 witness: the mask of P2 thresholds [[0, 1]] at the stored threshold. -/
theorem init_mask_eq_threshold_witness :
    P2.mask = d2.map (fun row => row.map (fun v => decide (P2.thresh < v))) :=
  init_mask_eq_threshold d2 (0, 0) P2 (by rfl)

/-- C7 witness: overlay shape, per-pixel pipeline and byte range on the grid
[[0, 1]] with mask [[false, true]]. -/
theorem overlay_shape_range_witness :
    (overlay_mask d2 [[false, true]]).length = d2.length ∧
    (∀ i : ℕ, i < d2.length →
      ((overlay_mask d2 [[false, true]]).getD i []).length = (d2.getD i []).length) ∧
    (∀ i j : ℕ, i < d2.length → j < (d2.getD i []).length →
      ((overlay_mask d2 [[false, true]]).getD i []).getD j (0, 0, 0) =
        overlayPixel ((d2.getD i []).getD j 0) (([[false, true]].getD i []).getD j false)) ∧
    (∀ orow ∈ overlay_mask d2 [[false, true]], ∀ t ∈ orow,
      0 ≤ t.1 ∧ t.1 ≤ 255 ∧ 0 ≤ t.2.1 ∧ t.2.1 ≤ 255 ∧ 0 ≤ t.2.2 ∧ t.2.2 ≤ 255) :=
  overlay_shape_range d2 [[false, true]] (by decide)
    (fun i hi => by
      have h0 : i = 0 := by
        have : d2.length = 1 := by decide
        omega
      subst h0
      rfl)
    (by decide)

/-- C8 witness: the padding theorem applied to [[0, 1]] with n = 5, plus its
concrete H = 23, n = 5 instance. -/
theorem create_patches_padding_witness :
    padNat 23 5 = 2 ∧ 23 + padNat 23 5 = 25 := by
  have h := create_patches_padding d2 5 (by norm_num) (by decide)
  exact ⟨h.2.2.2.2.2.2.2.2.2.1, h.2.2.2.2.2.2.2.2.2.2⟩

/-- C9 witness: repeating the successful add_region call on P3 leaves P3add
fixed, and repeating the successful remove_region call on P3add2 leaves P3rem
fixed. -/
theorem region_edit_idempotent_witness :
    P3add.add_region (0, 0) 1 = .ok P3add ∧
    P3rem.remove_region (1, 1) 1 = .ok P3rem := by
  constructor
  · exact (region_edit_idempotent P3 P3add (0, 0) 1).1 (by rfl)
  · exact (region_edit_idempotent P3add2 P3rem (1, 1) 1).2 (by rfl)

/-- C10 witness: the frame conditions at the concrete edits P3 to P3add
(add_region), P3add2 to P3rem (remove_region), and P3.clear_mask. -/
theorem region_edit_frame_witness :
    (P3add.patch = P3.patch ∧ P3add.patch_index = P3.patch_index ∧
      P3add.thresh = P3.thresh) ∧
    (P3rem.patch = P3add2.patch ∧ P3rem.patch_index = P3add2.patch_index ∧
      P3rem.thresh = P3add2.thresh) ∧
    (P3.clear_mask.patch = P3.patch ∧ P3.clear_mask.patch_index = P3.patch_index ∧
      P3.clear_mask.overlay_image = P3.overlay_image) := by
  refine ⟨(region_edit_frame P3 P3add P3 (0, 0) (0, 0) 1 0).1 (by rfl),
    (region_edit_frame P3add2 P3add2 P3rem (0, 0) (1, 1) 1 1).2.1 (by rfl),
    (region_edit_frame P3 P3add P3 (0, 0) (0, 0) 1 0).2.2⟩

end ConcreteEvaluations

end FriendlyGT
